import Mathlib

/-!
Verification of the http-tiny 1.2 client library (http_lib.c) against its
natural-language specification.  The source functions are shallowly embedded:
C strings become `List Nat` of byte values, the TCP stream becomes a list of
delivered chunks, machine integers become `Int`/`Nat`, and fallible or
undefined-behaviour paths become `Option`/`Except` values.
-/

namespace HttpTiny

/-- Byte values of a Lean string literal, used to write concrete C strings. -/
def bytes (s : String) : List Nat := s.data.map Char.toNat

/-- Return codes from http_lib.h (enum http_retcode). -/
def ERRHOST : Int := -1
def ERRSOCK : Int := -2
def ERRCONN : Int := -3
def ERRWRHD : Int := -4
def ERRWRDT : Int := -5
def ERRRDHD : Int := -6
def ERRPAHD : Int := -7
def ERRNULL : Int := -8
def ERRNOLG : Int := -9
def ERRMEM : Int := -10
def ERRRDDT : Int := -11
def ERRURLH : Int := -12
def ERRURLP : Int := -13

/-- C `tolower` on a byte in the C locale. -/
def toLowerB (c : Nat) : Nat := if 65 ≤ c ∧ c ≤ 90 then c + 32 else c

/-- Whitespace bytes skipped by scanf conversions. -/
def isWS (c : Nat) : Bool := c = 32 ∨ c = 9 ∨ c = 10 ∨ c = 11 ∨ c = 12 ∨ c = 13

/-- ASCII decimal digit test. -/
def isDigit (c : Nat) : Bool := 48 ≤ c ∧ c ≤ 57

/-- The TCP stream as seen through recv: a sequence of deliveries.  An empty
chunk (or the end of the list) makes recv return no bytes, which the C code
treats as EOF or error. -/
abbrev Chunks := List (List Nat)

/-- Total number of bytes in the stream, used as a termination measure. -/
def streamLen (cs : Chunks) : Nat := (cs.map List.length).sum

/-- One recv call asking for at most k bytes: delivers bytes from the head
chunk only, never more than k. -/
def recvChunk : Chunks → Nat → List Nat × Chunks
  | [], _ => ([], [])
  | c :: cs, k => if c.length ≤ k then (c, cs) else (c.take k, c.drop k :: cs)

/-- A stream delivering the given bytes as one chunk; the empty case is the
already-exhausted stream. -/
def mkStream : List Nat → Chunks
  | [] => []
  | l => [l]

/-- Bytes available before the first EOF/error event of the stream. -/
def avail (cs : Chunks) : List Nat := (cs.takeWhile (fun c => ¬ c = [])).flatten

/-- Loop body of http_read_line (http_lib.c lines 100-117): `acc` is the byte
content stored in the caller buffer so far, `n` the C counter of bytes read,
and the last argument the remaining iterations (`max - n`).  Returns the C
return value, the stored bytes, and the rest of the stream. -/
def readLineAux : Chunks → List Nat → Nat → Nat → Int × List Nat × Chunks
  | cs, acc, n, 0 => ((n : Int), acc, cs)
  | cs, acc, n, rem + 1 =>
    match recvChunk cs 1 with
    | ([], cs') => (-(n : Int), acc, cs')
    | (b :: _, cs') =>
      if b = 13 then readLineAux cs' acc (n + 1) rem
      else if b = 10 then (((n + 1 : Nat) : Int), acc, cs')
      else readLineAux cs' (acc ++ [b]) (n + 1) rem

/-- http_read_line (http_lib.c lines 94-121). -/
def http_read_line (cs : Chunks) (max : Nat) : Int × List Nat × Chunks :=
  readLineAux cs [] 0 max

/-- Loop of http_read_buffer (http_lib.c lines 137-143): `acc` is what has
been written to the caller buffer, `n` the C counter, the last argument
`length - n`. -/
def readBufAux : Chunks → List Nat → Nat → Nat → Int × List Nat × Chunks
  | cs, acc, n, 0 => ((n : Int), acc, cs)
  | cs, acc, n, rem + 1 =>
    match recvChunk cs (rem + 1) with
    | ([], cs') => (-(n : Int), acc, cs')
    | (b :: bs, cs') =>
      readBufAux cs' (acc ++ b :: bs) (n + (b :: bs).length) (rem + 1 - (b :: bs).length)
termination_by _ _ _ rem => rem
decreasing_by simp [List.length_cons]; omega

/-- http_read_buffer (http_lib.c lines 130-146). -/
def http_read_buffer (cs : Chunks) (length : Nat) : Int × List Nat × Chunks :=
  readBufAux cs [] 0 length

/-! Basic facts about the stream primitives. -/

theorem recvChunk_one (x : Nat) (r : List Nat) :
    recvChunk (mkStream (x :: r)) 1 = ([x], mkStream r) := by
  cases r with
  | nil => simp [mkStream, recvChunk]
  | cons y ys => simp [mkStream, recvChunk]

theorem recvChunk_empty (k : Nat) : recvChunk (mkStream []) k = ([], []) := by
  simp [mkStream, recvChunk]

/-- On a stream delivering a clean line body, a CRLF and then more bytes, the
line-reader loop reads the whole line: it counts every byte read (CR and LF
included), stores only the line body, and leaves the stream at the byte after
the LF. -/
theorem readLineAux_crlf (L rest acc : List Nat) (n rem : Nat)
    (h10 : ¬ 10 ∈ L) (h13 : ¬ 13 ∈ L) (hrem : L.length + 2 ≤ rem) :
    readLineAux (mkStream (L ++ 13 :: 10 :: rest)) acc n rem
      = ((n + L.length + 2 : Int), acc ++ L, mkStream rest) := by
  induction L generalizing acc n rem with
  | nil =>
    obtain ⟨rem1, rfl⟩ : ∃ k, rem = k + 2 := ⟨rem - 2, by omega⟩
    simp only [List.nil_append, List.length_nil, List.append_nil]
    show readLineAux (mkStream (13 :: 10 :: rest)) acc n (rem1 + 1 + 1)
      = ((n + 0 + 2 : Int), acc, mkStream rest)
    rw [readLineAux, recvChunk_one]
    simp only [if_pos rfl]
    rw [readLineAux, recvChunk_one]
    norm_num [Prod.mk.injEq]
    omega
  | cons a L ih =>
    have ha13 : ¬ a = 13 := fun h => h13 (by simp [h])
    have ha10 : ¬ a = 10 := fun h => h10 (by simp [h])
    obtain ⟨rem1, rfl⟩ : ∃ k, rem = k + 1 := ⟨rem - 1, by omega⟩
    show readLineAux (mkStream (a :: (L ++ 13 :: 10 :: rest))) acc n (rem1 + 1)
      = ((n + (a :: L).length + 2 : Int), acc ++ a :: L, mkStream rest)
    rw [readLineAux, recvChunk_one]
    simp only [if_neg ha13, if_neg ha10]
    rw [ih (acc ++ [a]) (n + 1) rem1 (fun h => h10 (by simp [h]))
      (fun h => h13 (by simp [h])) (by simp at hrem ⊢; omega)]
    simp only [List.length_cons, List.append_assoc, List.singleton_append, Prod.mk.injEq,
      and_true, true_and, and_self]
    push_cast
    ring

/-- http_read_line on a clean CRLF-terminated line within the byte limit. -/
theorem http_read_line_crlf (L rest : List Nat) (max : Nat)
    (h10 : ¬ 10 ∈ L) (h13 : ¬ 13 ∈ L) (hmax : L.length + 2 ≤ max) :
    http_read_line (mkStream (L ++ 13 :: 10 :: rest)) max
      = ((L.length + 2 : Int), L, mkStream rest) := by
  rw [http_read_line, readLineAux_crlf L rest [] 0 max h10 h13 hmax]
  simp

/-- Each successful line read consumes at least one stream byte, and no read
grows the stream. -/
theorem readLineAux_consumes (rem : Nat) :
    ∀ cs acc n, streamLen (readLineAux cs acc n rem).2.2 ≤ streamLen cs
      ∧ ((n : Int) < (readLineAux cs acc n rem).1
          → streamLen (readLineAux cs acc n rem).2.2 < streamLen cs) := by
  induction rem with
  | zero =>
    intro cs acc n
    simp [readLineAux]
  | succ rem ih =>
    intro cs acc n
    rw [readLineAux]
    rcases hcs : recvChunk cs 1 with ⟨bs, cs'⟩
    have hlen : streamLen cs' + bs.length ≤ streamLen cs := by
      cases cs with
      | nil =>
        simp only [recvChunk, Prod.mk.injEq] at hcs
        obtain ⟨h1, h2⟩ := hcs
        subst h1; subst h2
        simp [streamLen]
      | cons c cst =>
        simp only [recvChunk] at hcs
        by_cases h : c.length ≤ 1
        · rw [if_pos h] at hcs
          simp only [Prod.mk.injEq] at hcs
          obtain ⟨h1, h2⟩ := hcs
          subst h1; subst h2
          simp only [streamLen, List.map_cons, List.sum_cons]
          omega
        · rw [if_neg h] at hcs
          simp only [Prod.mk.injEq] at hcs
          obtain ⟨h1, h2⟩ := hcs
          subst h1; subst h2
          simp only [streamLen, List.map_cons, List.sum_cons, List.length_take,
            List.length_drop]
          omega
    rcases bs with _ | ⟨b, bs⟩
    · simp only []
      constructor
      · simpa using hlen
      · intro h; exfalso; simp at h; omega
    · have hstrict : streamLen cs' < streamLen cs := by
        simp at hlen; omega
      simp only []
      by_cases hb13 : b = 13
      · rw [if_pos hb13]
        refine ⟨le_of_lt (lt_of_le_of_lt (ih cs' acc (n + 1)).1 hstrict), ?_⟩
        intro _
        exact lt_of_le_of_lt (ih cs' acc (n + 1)).1 hstrict
      · rw [if_neg hb13]
        by_cases hb10 : b = 10
        · rw [if_pos hb10]
          exact ⟨le_of_lt hstrict, fun _ => hstrict⟩
        · rw [if_neg hb10]
          refine ⟨le_of_lt (lt_of_le_of_lt (ih cs' (acc ++ [b]) (n + 1)).1 hstrict), ?_⟩
          intro _
          exact lt_of_le_of_lt (ih cs' (acc ++ [b]) (n + 1)).1 hstrict

/-- A positive return from http_read_line strictly shrinks the stream. -/
theorem http_read_line_consumes (cs : Chunks) (max : Nat)
    (h : 0 < (http_read_line cs max).1) :
    streamLen (http_read_line cs max).2.2 < streamLen cs := by
  have := (readLineAux_consumes max cs [] 0).2
  exact this (by exact_mod_cast h)

theorem avail_mkStream (l : List Nat) : avail (mkStream l) = l := by
  cases l with
  | nil => simp [mkStream, avail]
  | cons x r => simp [mkStream, avail, List.takeWhile]

/-- A recv that delivers no bytes can only happen at the EOF/error point of
the stream. -/
theorem recvChunk_nil_avail (cs : Chunks) (k : Nat) (cs' : Chunks) (hk : 1 ≤ k)
    (h : recvChunk cs k = ([], cs')) : avail cs = [] := by
  cases cs with
  | nil => simp [avail]
  | cons c cst =>
    simp only [recvChunk] at h
    by_cases hc : c.length ≤ k
    · rw [if_pos hc] at h
      simp only [Prod.mk.injEq] at h
      obtain ⟨h1, _⟩ := h
      subst h1
      simp [avail, List.takeWhile]
    · rw [if_neg hc] at h
      simp only [Prod.mk.injEq] at h
      obtain ⟨h1, _⟩ := h
      cases c with
      | nil => exact absurd (Nat.zero_le k) (by simp at hc)
      | cons x r =>
        obtain ⟨k1, rfl⟩ : ∃ k1, k = k1 + 1 := ⟨k - 1, by omega⟩
        simp [List.take] at h1

/-- A recv that delivers bytes delivers an available chunk, of at most the
requested size. -/
theorem recvChunk_cons_avail (cs : Chunks) (k : Nat) (b : Nat) (bs : List Nat)
    (cs' : Chunks) (h : recvChunk cs k = (b :: bs, cs')) :
    avail cs = b :: (bs ++ avail cs') ∧ (b :: bs).length ≤ k := by
  cases cs with
  | nil => simp [recvChunk] at h
  | cons c cst =>
    simp only [recvChunk] at h
    by_cases hc : c.length ≤ k
    · rw [if_pos hc] at h
      simp only [Prod.mk.injEq] at h
      obtain ⟨h1, h2⟩ := h
      subst h1; subst h2
      constructor
      · simp [avail, List.takeWhile]
      · exact hc
    · rw [if_neg hc] at h
      simp only [Prod.mk.injEq] at h
      obtain ⟨h1, h2⟩ := h
      subst h2
      have hkc : k ≤ c.length := le_of_not_le hc
      have hcne : ¬ c = [] := by
        intro hc0; subst hc0; simp at h1
      have hdne : ¬ c.drop k = [] := by
        intro hd
        have := congrArg List.length hd
        simp [List.length_drop] at this
        omega
      constructor
      · have hav1 : avail (c :: cst) = c ++ avail cst := by
          simp [avail, List.takeWhile, hcne]
        have hav2 : avail (c.drop k :: cst) = c.drop k ++ avail cst := by
          simp [avail, List.takeWhile, hdne]
        rw [hav1, hav2]
        conv_lhs => rw [← List.take_append_drop k c]
        rw [h1]
        simp
      · have hlen := congrArg List.length h1
        rw [List.length_take, Nat.min_eq_left hkc] at hlen
        simp only [List.length_cons] at hlen ⊢
        omega

/-- The accumulating loop of http_read_buffer reads exactly `rem` further
bytes whenever the stream still has that many available, no matter how they
are split into chunks. -/
theorem readBufAux_le (cs : Chunks) (acc : List Nat) (n rem : Nat)
    (h : rem ≤ (avail cs).length) :
    (readBufAux cs acc n rem).1 = ((n + rem : Nat) : Int)
      ∧ (readBufAux cs acc n rem).2.1 = acc ++ (avail cs).take rem := by
  induction cs, acc, n, rem using readBufAux.induct with
  | case1 cs acc n =>
    simp [readBufAux]
  | case2 cs acc n rem cs' hm =>
    rw [recvChunk_nil_avail cs (rem + 1) cs' (by omega) hm] at h
    simp at h
  | case3 cs acc n rem b bs cs' hm ih =>
    obtain ⟨hav, hlen⟩ := recvChunk_cons_avail cs (rem + 1) b bs cs' hm
    rw [hav] at h
    simp only [List.length_cons, List.length_append] at h hlen
    rw [readBufAux, hm]
    obtain ⟨ih1, ih2⟩ := ih (by simp only [List.length_cons]; omega)
    refine ⟨?_, ?_⟩
    · rw [ih1]
      congr 1
      simp only [List.length_cons]
      omega
    · rw [ih2, hav, ← List.cons_append]
      simp only [Nat.succ_eq_add_one]
      conv_rhs => rw [show (rem + 1 : Nat) = (b :: bs).length + (rem + 1 - (b :: bs).length) from by
        simp only [List.length_cons]; omega]
      rw [List.take_append]
      simp [List.append_assoc]

/-- The accumulating loop of http_read_buffer, on a stream whose available
bytes run out before `rem` more are read, returns the negated count of all
bytes accumulated and stores exactly the available bytes. -/
theorem readBufAux_gt (cs : Chunks) (acc : List Nat) (n rem : Nat)
    (h : (avail cs).length < rem) :
    (readBufAux cs acc n rem).1 = -((n + (avail cs).length : Nat) : Int)
      ∧ (readBufAux cs acc n rem).2.1 = acc ++ avail cs := by
  induction cs, acc, n, rem using readBufAux.induct with
  | case1 cs acc n =>
    simp at h
  | case2 cs acc n rem cs' hm =>
    have hav := recvChunk_nil_avail cs (rem + 1) cs' (by omega) hm
    rw [readBufAux, hm]
    simp [hav]
  | case3 cs acc n rem b bs cs' hm ih =>
    obtain ⟨hav, hlen⟩ := recvChunk_cons_avail cs (rem + 1) b bs cs' hm
    rw [hav] at h
    simp only [List.length_cons, List.length_append] at h hlen
    rw [readBufAux, hm]
    obtain ⟨ih1, ih2⟩ := ih (by simp only [List.length_cons]; omega)
    refine ⟨?_, ?_⟩
    · rw [ih1, hav]
      simp only [List.length_cons, List.length_append]
      push_cast
      ring_nf
    · rw [ih2, hav]
      simp [List.append_assoc]

/-- http_read_buffer returns exactly the requested count and bytes when the
stream has them. -/
theorem http_read_buffer_full (cs : Chunks) (len : Nat)
    (h : len ≤ (avail cs).length) :
    (http_read_buffer cs len).1 = (len : Int)
      ∧ (http_read_buffer cs len).2.1 = (avail cs).take len := by
  have := readBufAux_le cs [] 0 len h
  simpa [http_read_buffer] using this

/-- http_read_buffer returns the negated accumulated count when the stream
ends early. -/
theorem http_read_buffer_short (cs : Chunks) (len : Nat)
    (h : (avail cs).length < len) :
    (http_read_buffer cs len).1 = -((avail cs).length : Int)
      ∧ (http_read_buffer cs len).2.1 = avail cs := by
  have := readBufAux_gt cs [] 0 len h
  simpa [http_read_buffer] using this

/-! Embeddings of the scanf-style parsing used on response lines. -/

/-- Matching of the literal part of a scanf format: each byte must match
exactly; on success the unconsumed input is returned. -/
def litMatch : List Nat → List Nat → Option (List Nat)
  | [], l => some l
  | _ :: _, [] => none
  | a :: lit, b :: l => if a = b then litMatch lit l else none

/-- Numeric value of a list of ASCII digits. -/
def digitsToInt (ds : List Nat) : Int :=
  List.foldl (fun a d => a * 10 + ((d : Int) - 48)) 0 ds

/-- scanf %d conversion: skip whitespace, optional sign, then at least one
digit; returns the value and the unconsumed input. -/
def scanSignedInt (l : List Nat) : Option (Int × List Nat) :=
  let l1 := l.dropWhile isWS
  match l1 with
  | 45 :: r =>
    let ds := r.takeWhile isDigit
    if ds = [] then none else some (-(digitsToInt ds), r.drop ds.length)
  | 43 :: r =>
    let ds := r.takeWhile isDigit
    if ds = [] then none else some (digitsToInt ds, r.drop ds.length)
  | _ =>
    let ds := l1.takeWhile isDigit
    if ds = [] then none else some (digitsToInt ds, l1.drop ds.length)

/-- scanf %03d conversion: like %d but reads at most 3 characters, the sign
counting toward the width. -/
def scanInt3 (l : List Nat) : Option Int :=
  let l1 := l.dropWhile isWS
  match l1 with
  | 45 :: r =>
    let ds := (r.take 2).takeWhile isDigit
    if ds = [] then none else some (-(digitsToInt ds))
  | 43 :: r =>
    let ds := (r.take 2).takeWhile isDigit
    if ds = [] then none else some (digitsToInt ds)
  | _ =>
    let ds := (l1.take 3).takeWhile isDigit
    if ds = [] then none else some (digitsToInt ds)

/-- Parse of the status line, sscanf(header, "HTTP/1.%*d %03d", ...)
(http_lib.c line 265): returns the status code iff the %03d assignment
succeeds. -/
def parseStatus (l : List Nat) : Option Int :=
  match litMatch (bytes "HTTP/1.") l with
  | none => none
  | some r =>
    match scanSignedInt r with
    | none => none
    | some (_, r2) => scanInt3 r2

/-- In-place lowercasing of a header line up to the first colon or NUL
(http_lib.c lines 382-384). -/
def lowerUptoColon : List Nat → List Nat
  | [] => []
  | c :: cs =>
    if c = 58 ∨ c = 0 then c :: cs else toLowerB c :: lowerUptoColon cs

/-- sscanf(header, "content-length: %d", &length) (http_lib.c line 385). -/
def scanCL (l : List Nat) : Option Int :=
  match litMatch (bytes "content-length:") l with
  | none => none
  | some r =>
    match scanSignedInt r with
    | none => none
    | some (v, _) => some v

/-- sscanf(header, "content-type: %s", typebuf) (http_lib.c line 387): %s
skips whitespace and assigns a maximal non-whitespace token, failing at end
of input. -/
def scanCT (l : List Nat) : Option (List Nat) :=
  match litMatch (bytes "content-type:") l with
  | none => none
  | some r =>
    let r2 := r.dropWhile isWS
    let tok := r2.takeWhile (fun c => ¬ isWS c)
    if tok = [] then none else some tok

/-- The response-header loop shared verbatim by http_get (lines 367-389) and
http_head (lines 459-478): read a line; a failed read aborts with ERRRDHD
(error case, carrying the remaining stream); a line whose first byte is NUL
ends the headers; otherwise the line is lowercased up to the colon and the
content-length and content-type conversions are attempted, the latter only
when the caller passed a type buffer. -/
def readHeaders (cs : Chunks) (len : Int) (tb : Option (List Nat)) :
    Except Chunks (Int × Option (List Nat) × Chunks) :=
  if _h1 : (http_read_line cs 511).1 ≤ 0 then .error (http_read_line cs 511).2.2
  else if (http_read_line cs 511).2.1.headD 0 = 0 then
    .ok (len, tb, (http_read_line cs 511).2.2)
  else
    readHeaders (http_read_line cs 511).2.2
      ((scanCL (lowerUptoColon (http_read_line cs 511).2.1)).getD len)
      (Option.map (fun t => (scanCT (lowerUptoColon (http_read_line cs 511).2.1)).getD t) tb)
termination_by streamLen cs
decreasing_by exact http_read_line_consumes cs 511 (by omega)

/-- Address families (numeric values as on Linux; only their distinctness
matters). -/
def AF_INET : Nat := 2
def AF_INET6 : Nat := 10
def AF_UNIX : Nat := 1

/-- One getaddrinfo result entry: its family and an abstract identity of the
sockaddr bytes it points to. -/
structure AddrEnt where
  family : Nat
  host : Nat
deriving DecidableEq, Repr

/-- The sockaddr_storage passed to connect: family and host bytes copied by
memcpy, and the port stored by the switch on the address family. -/
structure SockAddrM where
  family : Nat
  host : Nat
  port : Nat
deriving DecidableEq, Repr

/-- Environment of a query: the getaddrinfo outcome and the success of the
socket, connect and send calls, which are outside the byte-level model. -/
structure NetEnv where
  addrs : Option (List AddrEnt)
  sockOk : Bool
  connOk : Bool
  sendHdrOk : Bool
  sendBodyOk : Bool

/-- Outcome of http_query: return code, whether socket() was reached and
succeeded, the sockaddr handed to connect, whether the open socket was handed
back through pfd, and the remaining response stream. -/
structure QueryResult where
  ret : Int
  socketCreated : Bool
  connTarget : Option SockAddrM
  fdOpen : Bool
  rest : Chunks
deriving Repr

/-- http_query (http_lib.c lines 169-280), response side.  The request header
assembly and send are summarised by the env booleans; the address selection
loop, the memcpy of `addrinfo->ai_addr` (the FIRST list entry) into `server`,
the port store, and the status-line read are modelled faithfully. -/
def http_query (env : NetEnv) (port : Nat) (keepOpen hasBody : Bool)
    (cs : Chunks) : QueryResult :=
  match env.addrs with
  | none => ⟨ERRHOST, false, none, false, cs⟩
  | some ads =>
    match ads.find? (fun a => a.family = AF_INET ∨ a.family = AF_INET6) with
    | none => ⟨ERRHOST, false, none, false, cs⟩
    | some _ =>
      let first := ads.headD ⟨0, 0⟩
      let server : SockAddrM := ⟨first.family, first.host, port⟩
      if ¬ env.sockOk then ⟨ERRSOCK, false, none, false, cs⟩
      else if ¬ env.connOk then ⟨ERRCONN, true, some server, false, cs⟩
      else if ¬ env.sendHdrOk then ⟨ERRWRHD, true, some server, false, cs⟩
      else if hasBody ∧ ¬ env.sendBodyOk then ⟨ERRWRDT, true, some server, false, cs⟩
      else
        let r := http_read_line cs 511
        if r.1 ≤ 0 then ⟨ERRRDHD, true, some server, false, r.2.2⟩
        else
          match parseStatus r.2.1 with
          | none => ⟨ERRPAHD, true, some server, false, r.2.2⟩
          | some code => ⟨code, true, some server, keepOpen ∧ 0 ≤ code, r.2.2⟩

/-- Conversion of a C int to size_t (64-bit), as in `*plength = length`. -/
def sizeT (i : Int) : Nat := (i % ((2 : Int) ^ 64)).toNat

/-- Outcome of http_get: return code, the final value of *pdata (`none` when
the pdata argument itself was NULL, `some none` when *pdata is NULL), *plength,
*typebuf, the size of the malloc'd body buffer if any, and the remaining
stream. -/
structure GetResult where
  ret : Int
  pdata : Option (Option (List Nat))
  plength : Option Nat
  typebuf : Option (List Nat)
  allocated : Option Nat
  rest : Chunks

/-- Body phase of http_get (http_lib.c lines 391-411), entered after the
header loop with the scanned length and type: rejects a non-positive length
with ERRNOLG, stores the declared length through plength, allocates the body
buffer, and reads exactly the declared count, a short read giving ERRRDDT. -/
def http_get_body (len : Int) (tb : Option (List Nat)) (cs' : Chunks)
    (plengthP mallocOk : Bool) (junk : Nat) : GetResult :=
  if len ≤ 0 then
    ⟨ERRNOLG, some none, (if plengthP then some 0 else none), tb, none, cs'⟩
  else if ¬ mallocOk then
    ⟨ERRMEM, some none, (if plengthP then some (sizeT len) else none), tb, none, cs'⟩
  else if ¬ (http_read_buffer cs' len.toNat).1 = (len.toNat : Int) then
    ⟨ERRRDDT,
      some (some ((http_read_buffer cs' len.toNat).2.1
        ++ List.replicate (len.toNat - (http_read_buffer cs' len.toNat).2.1.length) junk)),
      (if plengthP then some (sizeT len) else none), tb, some len.toNat,
      (http_read_buffer cs' len.toNat).2.2⟩
  else
    ⟨200,
      some (some ((http_read_buffer cs' len.toNat).2.1
        ++ List.replicate (len.toNat - (http_read_buffer cs' len.toNat).2.1.length) junk)),
      (if plengthP then some (sizeT len) else none), tb, some len.toNat,
      (http_read_buffer cs' len.toNat).2.2⟩

/-- http_get (http_lib.c lines 337-412).  `junk` is the uninitialised content
of malloc'd bytes; `mallocOk` the success of malloc. -/
def http_get (env : NetEnv) (port : Nat) (cs : Chunks)
    (pdataP plengthP typebufP mallocOk : Bool) (junk : Nat) : GetResult :=
  if ¬ pdataP then ⟨ERRNULL, none, none, none, none, cs⟩
  else if ¬ (http_query env port true false cs).ret = 200 then
    ⟨(http_query env port true false cs).ret, some none,
      (if plengthP then some 0 else none), (if typebufP then some [] else none),
      none, (http_query env port true false cs).rest⟩
  else
    match readHeaders (http_query env port true false cs).rest (-1)
        (if typebufP then some [] else none) with
    | .error cs' =>
      ⟨ERRRDHD, some none, (if plengthP then some 0 else none),
        (if typebufP then some [] else none), none, cs'⟩
    | .ok (len, tb, cs') => http_get_body len tb cs' plengthP mallocOk junk

/-- Outcome of http_head, as for http_get but without a data pointer. -/
structure HeadResult where
  ret : Int
  plength : Option Nat
  typebuf : Option (List Nat)
  allocated : Option Nat
  rest : Chunks

/-- http_head (http_lib.c lines 433-484). -/
def http_head (env : NetEnv) (port : Nat) (cs : Chunks)
    (plengthP typebufP : Bool) : HeadResult :=
  let plength0 : Option Nat := if plengthP then some 0 else none
  let tb0 : Option (List Nat) := if typebufP then some [] else none
  let q := http_query env port true false cs
  if ¬ q.ret = 200 then ⟨q.ret, plength0, tb0, none, q.rest⟩
  else
    match readHeaders q.rest (-1) tb0 with
    | .error cs' => ⟨ERRRDHD, plength0, tb0, none, cs'⟩
    | .ok (len, tb, cs') =>
      ⟨q.ret, if plengthP then some (sizeT len) else none, tb, none, cs'⟩

/-! Well-formed response framing: a header section is a sequence of
CRLF-terminated lines followed by the blank CRLF line, then the body. -/

/-- Wire encoding of a header section followed by the body. -/
def encodeHdrs (hdrs : List (List Nat)) (body : List Nat) : List Nat :=
  (hdrs.map (fun h => h ++ [13, 10])).flatten ++ 13 :: 10 :: body

/-- A header line the line reader passes through unchanged: nonempty, within
the buffer limit, and free of NUL, LF and CR bytes. -/
def cleanLine (h : List Nat) : Prop :=
  ¬ h = [] ∧ h.length + 2 ≤ 511 ∧ ¬ 0 ∈ h ∧ ¬ 10 ∈ h ∧ ¬ 13 ∈ h

instance : DecidablePred cleanLine := fun h => by unfold cleanLine; infer_instance

/-- The value the C variable `length` holds after the header loop has scanned
the given lines. -/
def foldLen (hdrs : List (List Nat)) (len : Int) : Int :=
  hdrs.foldl (fun L h => (scanCL (lowerUptoColon h)).getD L) len

/-- The final typebuf content after the header loop. -/
def foldTb (hdrs : List (List Nat)) (tb : Option (List Nat)) : Option (List Nat) :=
  hdrs.foldl (fun t h => Option.map (fun tt => (scanCT (lowerUptoColon h)).getD tt) t) tb

theorem encodeHdrs_cons (h : List Nat) (t : List (List Nat)) (body : List Nat) :
    encodeHdrs (h :: t) body = h ++ 13 :: 10 :: encodeHdrs t body := by
  simp [encodeHdrs]

theorem headD_ne_zero (h : List Nat) (hne : ¬ h = []) (h0 : ¬ 0 ∈ h) :
    ¬ h.headD 0 = 0 := by
  cases h with
  | nil => exact absurd rfl hne
  | cons x r =>
    intro hx
    exact h0 (by simp [List.headD] at hx; simp [hx])

/-- The header loop on a well-formed header section: consumes exactly the
header lines and the blank line, folds the content-length and content-type
conversions over the lines, and leaves the stream at the first body byte. -/
theorem readHeaders_encode (hdrs : List (List Nat)) (body : List Nat)
    (len : Int) (tb : Option (List Nat)) (hclean : ∀ h ∈ hdrs, cleanLine h) :
    readHeaders (mkStream (encodeHdrs hdrs body)) len tb
      = .ok (foldLen hdrs len, foldTb hdrs tb, mkStream body) := by
  induction hdrs generalizing len tb with
  | nil =>
    have hl := http_read_line_crlf [] body 511 (by simp) (by simp) (by norm_num)
    simp only [List.nil_append, List.length_nil] at hl
    rw [readHeaders]
    simp only [encodeHdrs, List.map_nil, List.flatten_nil, List.nil_append, hl]
    norm_num [foldLen, foldTb]
  | cons h t ih =>
    obtain ⟨hne, hlen, h0, h10, h13⟩ := hclean h (by simp)
    have hl := http_read_line_crlf h (encodeHdrs t body) 511 h10 h13 hlen
    rw [readHeaders]
    rw [encodeHdrs_cons, hl]
    have hpos : ¬ ((h.length + 2 : Int) ≤ 0) := by omega
    rw [dif_neg hpos, if_neg (headD_ne_zero h hne h0)]
    rw [ih _ _ (fun x hx => hclean x (by simp [hx]))]
    simp [foldLen, foldTb]

/-- http_query on a working connection whose response starts with a clean,
parseable status line: returns the parsed code and leaves the stream right
after the line. -/
theorem http_query_status (env : NetEnv) (ads : List AddrEnt) (a : AddrEnt)
    (port : Nat) (keepOpen : Bool) (sline after : List Nat) (code : Int)
    (ha : env.addrs = some ads)
    (hf : ads.find? (fun x => x.family = AF_INET ∨ x.family = AF_INET6) = some a)
    (hs : env.sockOk = true) (hc : env.connOk = true) (hh : env.sendHdrOk = true)
    (h10 : ¬ 10 ∈ sline) (h13 : ¬ 13 ∈ sline) (hlen : sline.length + 2 ≤ 511)
    (hps : parseStatus sline = some code) :
    http_query env port keepOpen false (mkStream (sline ++ 13 :: 10 :: after))
      = ⟨code, true,
          some ⟨(ads.headD ⟨0, 0⟩).family, (ads.headD ⟨0, 0⟩).host, port⟩,
          keepOpen ∧ 0 ≤ code, mkStream after⟩ := by
  rw [http_query, ha]
  simp only [hf]
  rw [http_read_line_crlf sline after 511 h10 h13 hlen]
  simp only [hs, hc, hh, not_true, if_false, Bool.false_eq_true, false_and, and_false]
  have hpos : ¬ ((sline.length + 2 : Int) ≤ 0) := by omega
  simp only [hpos, if_false, hps]

/-- http_get on a working connection, a clean 200 status line and a
well-formed header section: it reaches the body phase with the folded
content-length and content-type values, the stream sitting at the first body
byte. -/
theorem http_get_hdrs (env : NetEnv) (ads : List AddrEnt) (a : AddrEnt)
    (port : Nat) (sline : List Nat) (hdrs : List (List Nat)) (body : List Nat)
    (plengthP typebufP mallocOk : Bool) (junk : Nat)
    (ha : env.addrs = some ads)
    (hf : ads.find? (fun x => x.family = AF_INET ∨ x.family = AF_INET6) = some a)
    (hs : env.sockOk = true) (hc : env.connOk = true) (hh : env.sendHdrOk = true)
    (h10 : ¬ 10 ∈ sline) (h13 : ¬ 13 ∈ sline) (hlen : sline.length + 2 ≤ 511)
    (hps : parseStatus sline = some 200)
    (hclean : ∀ h ∈ hdrs, cleanLine h) :
    http_get env port (mkStream (sline ++ 13 :: 10 :: encodeHdrs hdrs body))
        true plengthP typebufP mallocOk junk
      = http_get_body (foldLen hdrs (-1))
          (foldTb hdrs (if typebufP then some [] else none))
          (mkStream body) plengthP mallocOk junk := by
  rw [http_get]
  rw [http_query_status env ads a port true sline (encodeHdrs hdrs body) 200 ha hf hs hc hh
    h10 h13 hlen hps]
  norm_num
  rw [readHeaders_encode hdrs body (-1) (if typebufP = true then some [] else none) hclean]

/-- http_head under the same conditions: returns 200, the folded length
converted to size_t, the folded type, and leaves the whole body unread. -/
theorem http_head_hdrs (env : NetEnv) (ads : List AddrEnt) (a : AddrEnt)
    (port : Nat) (sline : List Nat) (hdrs : List (List Nat)) (body : List Nat)
    (plengthP typebufP : Bool)
    (ha : env.addrs = some ads)
    (hf : ads.find? (fun x => x.family = AF_INET ∨ x.family = AF_INET6) = some a)
    (hs : env.sockOk = true) (hc : env.connOk = true) (hh : env.sendHdrOk = true)
    (h10 : ¬ 10 ∈ sline) (h13 : ¬ 13 ∈ sline) (hlen : sline.length + 2 ≤ 511)
    (hps : parseStatus sline = some 200)
    (hclean : ∀ h ∈ hdrs, cleanLine h) :
    http_head env port (mkStream (sline ++ 13 :: 10 :: encodeHdrs hdrs body))
        plengthP typebufP
      = ⟨200, if plengthP then some (sizeT (foldLen hdrs (-1))) else none,
          foldTb hdrs (if typebufP then some [] else none), none, mkStream body⟩ := by
  rw [http_head]
  rw [http_query_status env ads a port true sline (encodeHdrs hdrs body) 200 ha hf hs hc hh
    h10 h13 hlen hps]
  norm_num
  rw [readHeaders_encode hdrs body (-1) (if typebufP = true then some [] else none) hclean]

/-- http_head allocates no body buffer on any input whatsoever. -/
theorem http_head_alloc_none (env : NetEnv) (port : Nat) (cs : Chunks)
    (pP tP : Bool) : (http_head env port cs pP tP).allocated = none := by
  simp only [http_head]
  by_cases hq : ¬ (http_query env port true false cs).ret = 200
  · rw [if_pos hq]
  · rw [if_neg hq]
    rcases hE : readHeaders (http_query env port true false cs).rest (-1)
        (if tP = true then some [] else none) with cs' | ⟨len, tb, cs'⟩ <;> simp [hE]

/-- If no header line matches the content-length conversion, the length
variable keeps its initial value. -/
theorem foldLen_none (hdrs : List (List Nat)) (len : Int) :
    (∀ x ∈ hdrs, scanCL (lowerUptoColon x) = none) → foldLen hdrs len = len := by
  induction hdrs generalizing len with
  | nil => intro _; rfl
  | cons x t ih =>
    intro h
    simp only [foldLen, List.foldl_cons, h x (by simp), Option.getD_none]
    exact ih len (fun y hy => h y (by simp [hy]))

/-! Embedding of the URL parser. -/

/-- The http_req structure, with string fields as optional byte lists
(`none` = NULL). -/
structure HttpReqM where
  server : Option (List Nat)
  port : Int
  proxy_server : Option (List Nat)
  proxy_port : Int
  pathname : Option (List Nat)
deriving DecidableEq, Repr

/-- The strcspn(ourUrl, ":/") count (http_lib.c line 536), over the bytes
after the scheme: stops at the first colon, slash or NUL. -/
def urlOffs (url : List Nat) : Nat :=
  ((url.drop 7).takeWhile (fun c => ¬ (c = 0 ∨ c = 58 ∨ c = 47))).length

/-- The host copied into req->server (http_lib.c lines 538-541). -/
def urlHost (url : List Nat) : List Nat := (url.drop 7).take (urlOffs url)

/-- The bytes after the host delimiter, where the port digits start. -/
def urlAfterHost (url : List Nat) : List Nat := (url.drop 7).drop (urlOffs url + 1)

/-- The strcspn(ourUrl, "/") count after the port (http_lib.c line 549). -/
def urlOffs2 (url : List Nat) : Nat :=
  ((urlAfterHost url).takeWhile (fun c => ¬ (c = 0 ∨ c = 47))).length

/-- http_parse_url (http_lib.c lines 511-555) over the duplicated URL bytes
(a NUL-free byte list, as any C string argument is).  The `.error ()` outcome
marks the undefined behaviour in the source: after `ourUrl += offs + 1` the
pointer can sit one byte past the NUL terminator of the strdup'd buffer, and
the final `strdup(ourUrl)` then reads out of bounds.  All in-bounds paths
return the C return code with the resulting fields. -/
def http_parse_url (req : HttpReqM) (url : List Nat) : Except Unit (Int × HttpReqM) :=
  if ¬ (url.take 7).map toLowerB = bytes "http://" then
    .ok (ERRURLH, { req with port := 80, server := none, pathname := none })
  else
    if (url.drop 7).getD (urlOffs url) 0 = 58 then
      match scanSignedInt (urlAfterHost url) with
      | none =>
        .ok (ERRURLP, { req with port := 80, server := some (urlHost url), pathname := none })
      | some p =>
        if urlOffs2 url + 1 ≤ (urlAfterHost url).length then
          .ok (0,
            { req with
              port := p.1
              server := some (urlHost url)
              pathname := some ((urlAfterHost url).drop (urlOffs2 url + 1)) })
        else .error ()
    else
      if urlOffs url + 1 ≤ (url.drop 7).length then
        .ok (0,
          { req with
            port := 80
            server := some (urlHost url)
            pathname := some ((url.drop 7).drop (urlOffs url + 1)) })
      else .error ()

/-- For a URL of scheme plus a nonempty delimiter-free host, the parser's
final pointer lands one byte past the NUL and the strdup of the pathname
reads out of bounds: the model returns the undefined-behaviour marker. -/
theorem parse_url_no_slash (req : HttpReqM) (host : List Nat)
    (h0 : ¬ 0 ∈ host) (h58 : ¬ 58 ∈ host) (h47 : ¬ 47 ∈ host) :
    http_parse_url req (bytes "http://" ++ host) = .error () := by
  have h7 : ((bytes "http://" ++ host).take 7).map toLowerB = bytes "http://" := by
    rw [show (7 : Nat) = (bytes "http://").length from rfl, List.take_left]
    decide
  have hdrop : (bytes "http://" ++ host).drop 7 = host := by
    rw [show (7 : Nat) = (bytes "http://").length from rfl, List.drop_left]
  have htw : host.takeWhile (fun c => ¬ (c = 0 ∨ c = 58 ∨ c = 47)) = host := by
    rw [List.takeWhile_eq_self_iff]
    intro x hx
    simp only [decide_eq_true_eq, not_or]
    exact ⟨fun h => h0 (h ▸ hx), fun h => h58 (h ▸ hx), fun h => h47 (h ▸ hx)⟩
  have hoffs : urlOffs (bytes "http://" ++ host) = host.length := by
    rw [urlOffs, hdrop, htw]
  rw [http_parse_url, if_neg (fun hc => hc h7)]
  rw [hoffs, hdrop]
  rw [List.getD_eq_default _ _ (le_refl host.length)]
  norm_num

/-- On every in-bounds failure of http_parse_url: the invalid-scheme return
clears both owned fields, while the invalid-port return leaves the freshly
parsed host in the server field with the pathname cleared. -/
theorem parse_url_fail_state (req : HttpReqM) (url : List Nat) (ret : Int)
    (req' : HttpReqM) (h : http_parse_url req url = .ok (ret, req')) :
    (ret = ERRURLH → req'.server = none ∧ req'.pathname = none ∧ req'.port = 80)
    ∧ (ret = ERRURLP → req'.pathname = none ∧ req'.port = 80
        ∧ req'.server = some (urlHost url)) := by
  rw [http_parse_url] at h
  by_cases h1 : ¬ ((url.take 7).map toLowerB = bytes "http://")
  · rw [if_pos h1] at h
    simp only [Except.ok.injEq, Prod.mk.injEq] at h
    obtain ⟨hret, hreq⟩ := h
    subst hret; subst hreq
    constructor
    · intro _; simp
    · intro hc; norm_num [ERRURLH, ERRURLP] at hc
  · rw [if_neg h1] at h
    by_cases h2 : (url.drop 7).getD (urlOffs url) 0 = 58
    · rw [if_pos h2] at h
      rcases hscan : scanSignedInt (urlAfterHost url) with _ | p
      · rw [hscan] at h
        simp only [Except.ok.injEq, Prod.mk.injEq] at h
        obtain ⟨hret, hreq⟩ := h
        subst hret; subst hreq
        constructor
        · intro hc; norm_num [ERRURLH, ERRURLP] at hc
        · intro _; simp
      · rw [hscan] at h
        dsimp only at h
        by_cases h3 : urlOffs2 url + 1 ≤ (urlAfterHost url).length
        · rw [if_pos h3] at h
          simp only [Except.ok.injEq, Prod.mk.injEq] at h
          obtain ⟨hret, _⟩ := h
          subst hret
          constructor <;> · intro hc; norm_num [ERRURLH, ERRURLP] at hc
        · rw [if_neg h3] at h
          exact absurd h (by simp)
    · rw [if_neg h2] at h
      by_cases h3 : urlOffs url + 1 ≤ (url.drop 7).length
      · rw [if_pos h3] at h
        simp only [Except.ok.injEq, Prod.mk.injEq] at h
        obtain ⟨hret, _⟩ := h
        subst hret
        constructor <;> · intro hc; norm_num [ERRURLH, ERRURLP] at hc
      · rw [if_neg h3] at h
        exact absurd h (by simp)

/-! Allocation-tracking model of the descriptor string fields, for the
free-exactly-once invariant of http_parse_url and http_freereq.  Each
allocation is a fresh id; free of an id that is not live is the
double-free/invalid-free error, returned as `none`. -/

structure HeapM where
  next : Nat
  live : List Nat
deriving DecidableEq, Repr

def HeapM.alloc (h : HeapM) : Nat × HeapM := (h.next, ⟨h.next + 1, h.next :: h.live⟩)

def HeapM.free (h : HeapM) (i : Nat) : Option HeapM :=
  if i ∈ h.live then some ⟨h.next, h.live.erase i⟩ else none

/-- free(field) guarded by the `if (req->field)` NULL test of the source. -/
def freeField (h : HeapM) (f : Option Nat) : Option HeapM :=
  match f with
  | none => some h
  | some i => h.free i

/-- The three owned string fields of http_req, as allocation ids. -/
structure ReqIds where
  server : Option Nat
  pathname : Option Nat
  proxy_server : Option Nat
deriving DecidableEq, Repr

/-- Which branch http_parse_url takes, determined by the URL: invalid scheme
(no allocation), invalid port (server allocated), or the path reaching the
final strdup (server and pathname allocated; the out-of-bounds strdup of the
no-slash case allocates the same way). -/
inductive ParsePath | badScheme | badPort | okPath
deriving DecidableEq, Repr

/-- Allocation behaviour of http_parse_url (http_lib.c lines 519-554): free
and clear server and pathname, then allocate per the branch taken. -/
def parse_urlH (h : HeapM) (r : ReqIds) (p : ParsePath) : Option (HeapM × ReqIds) :=
  match freeField h r.server with
  | none => none
  | some h1 =>
    match freeField h1 r.pathname with
    | none => none
    | some h2 =>
      let r2 : ReqIds := ⟨none, none, r.proxy_server⟩
      match p with
      | .badScheme => some (h2, r2)
      | .badPort =>
        let a := h2.alloc
        some (a.2, { r2 with server := some a.1 })
      | .okPath =>
        let a := h2.alloc
        let b := a.2.alloc
        some (b.2, { r2 with server := some a.1, pathname := some b.1 })

/-- http_freereq (http_lib.c lines 559-574): free and clear server,
proxy_server and pathname, in source order. -/
def freereqH (h : HeapM) (r : ReqIds) : Option (HeapM × ReqIds) :=
  match freeField h r.server with
  | none => none
  | some h1 =>
    match freeField h1 r.proxy_server with
    | none => none
    | some h2 =>
      match freeField h2 r.pathname with
      | none => none
      | some h3 => some (h3, ⟨none, none, none⟩)

/-- A call sequence against one descriptor. -/
inductive ReqOp
  | parse (p : ParsePath)
  | freereq
deriving DecidableEq, Repr

def runOps (h : HeapM) (r : ReqIds) : List ReqOp → Option (HeapM × ReqIds)
  | [] => some (h, r)
  | op :: ops =>
    match (match op with
           | .parse p => parse_urlH h r p
           | .freereq => freereqH h r) with
    | none => none
    | some s => runOps s.1 s.2 ops

/-- The field allocation ids, in a fixed order. -/
def fieldsOf (r : ReqIds) : List Nat :=
  [r.server, r.pathname, r.proxy_server].filterMap id

/-- Ownership invariant: the live allocations are exactly the ids held in the
fields (no leak), each field id is distinct (so each free hits a live block),
and every live id is below the allocation counter (freshness). -/
def ReqInv (h : HeapM) (r : ReqIds) : Prop :=
  h.live.Nodup ∧ (fieldsOf r).Nodup
    ∧ (∀ i ∈ h.live, i ∈ fieldsOf r) ∧ (∀ i ∈ fieldsOf r, i ∈ h.live)
    ∧ (∀ i ∈ h.live, i < h.next)

instance (h : HeapM) (r : ReqIds) : Decidable (ReqInv h r) := by
  unfold ReqInv; infer_instance

/-- The invariant stated against an arbitrary list of field ids. -/
def StateOk (h : HeapM) (fs : List Nat) : Prop :=
  h.live.Nodup ∧ fs.Nodup
    ∧ (∀ i ∈ h.live, i ∈ fs) ∧ (∀ i ∈ fs, i ∈ h.live)
    ∧ (∀ i ∈ h.live, i < h.next)

theorem filterMap_id_cons (o : Option Nat) (l : List (Option Nat)) :
    List.filterMap id (o :: l) = o.toList ++ List.filterMap id l := by
  cases o <;> simp

theorem fieldsOf_eq (r : ReqIds) :
    fieldsOf r = r.server.toList ++ (r.pathname.toList ++ r.proxy_server.toList) := by
  rw [fieldsOf, filterMap_id_cons, filterMap_id_cons, filterMap_id_cons]
  simp

theorem ReqInv_iff (h : HeapM) (r : ReqIds) :
    ReqInv h r ↔ StateOk h (r.server.toList ++ (r.pathname.toList ++ r.proxy_server.toList)) := by
  rw [ReqInv, StateOk, fieldsOf_eq]

theorem StateOk.perm (h : HeapM) (fs fs' : List Nat) (hp : fs.Perm fs')
    (hok : StateOk h fs) : StateOk h fs' := by
  obtain ⟨hl, hf, h1, h2, h3⟩ := hok
  exact ⟨hl, hp.nodup_iff.mp hf, fun i hi => hp.mem_iff.mp (h1 i hi),
    fun i hi => h2 i (hp.mem_iff.mpr hi), h3⟩

/-- Freeing the first field under the invariant always succeeds and preserves
it for the remaining fields. -/
theorem freeField_ok (h : HeapM) (f : Option Nat) (fs : List Nat)
    (hok : StateOk h (f.toList ++ fs)) :
    ∃ h', freeField h f = some h' ∧ StateOk h' fs ∧ h'.next = h.next := by
  obtain ⟨hl, hf, h1, h2, h3⟩ := hok
  cases f with
  | none => exact ⟨h, rfl, ⟨hl, by simpa using hf, by simpa using h1, by simpa using h2, h3⟩, rfl⟩
  | some i =>
    simp only [Option.toList, List.singleton_append] at hf h1 h2
    have hmem : i ∈ h.live := h2 i (by simp)
    refine ⟨⟨h.next, h.live.erase i⟩, ?_, ?_, rfl⟩
    · simp [freeField, HeapM.free, hmem]
    · have hnel : ¬ i ∈ fs := (List.nodup_cons.mp hf).1
      refine ⟨hl.erase i, (List.nodup_cons.mp hf).2, ?_, ?_, ?_⟩
      · intro x hx
        have hx' := (hl.mem_erase_iff).mp hx
        rcases List.mem_cons.mp (h1 x hx'.2) with hc | hc
        · exact absurd hc hx'.1
        · exact hc
      · intro x hx
        refine (hl.mem_erase_iff).mpr ⟨?_, h2 x (by simp [hx])⟩
        intro hxi
        subst hxi
        exact hnel hx
      · intro x hx
        exact h3 x (List.mem_of_mem_erase hx)

/-- Allocation returns a fresh id and preserves the invariant with the new id
adjoined. -/
theorem alloc_ok (h : HeapM) (fs : List Nat) (hok : StateOk h fs) :
    StateOk h.alloc.2 (h.alloc.1 :: fs) := by
  obtain ⟨hl, hf, h1, h2, h3⟩ := hok
  have hfresh : ¬ h.next ∈ h.live := fun hmem => by
    have := h3 _ hmem; omega
  have hfreshf : ¬ h.next ∈ fs := fun hmem => hfresh (h2 _ hmem)
  refine ⟨List.nodup_cons.mpr ⟨hfresh, hl⟩, List.nodup_cons.mpr ⟨hfreshf, hf⟩, ?_, ?_, ?_⟩
  · intro x hx
    rcases List.mem_cons.mp hx with h | h
    · simp [HeapM.alloc, h]
    · exact List.mem_cons.mpr (Or.inr (h1 x h))
  · intro x hx
    rcases List.mem_cons.mp hx with h | h
    · simp [HeapM.alloc, h]
    · exact List.mem_cons.mpr (Or.inr (h2 x h))
  · intro x hx
    simp only [HeapM.alloc] at hx ⊢
    rcases List.mem_cons.mp hx with h | h
    · omega
    · have := h3 x h; omega

/-- http_parse_url never frees a dead block and leaves the ownership
invariant intact, whichever branch it takes. -/
theorem parse_urlH_ok (h : HeapM) (r : ReqIds) (p : ParsePath)
    (hok : ReqInv h r) : ∃ s, parse_urlH h r p = some s ∧ ReqInv s.1 s.2 := by
  rw [ReqInv_iff] at hok
  obtain ⟨h1, hf1, hok1, hn1⟩ := freeField_ok h r.server _ hok
  obtain ⟨h2, hf2, hok2, hn2⟩ := freeField_ok h1 r.pathname _ hok1
  cases p with
  | badScheme =>
    refine ⟨(h2, ⟨none, none, r.proxy_server⟩), ?_, ?_⟩
    · simp [parse_urlH, hf1, hf2]
    · rw [ReqInv_iff]
      simpa using hok2
  | badPort =>
    refine ⟨(h2.alloc.2, ⟨some h2.alloc.1, none, r.proxy_server⟩), ?_, ?_⟩
    · simp [parse_urlH, hf1, hf2]
    · rw [ReqInv_iff]
      simpa using alloc_ok h2 _ hok2
  | okPath =>
    refine ⟨(h2.alloc.2.alloc.2,
      ⟨some h2.alloc.1, some h2.alloc.2.alloc.1, r.proxy_server⟩), ?_, ?_⟩
    · simp [parse_urlH, hf1, hf2]
    · rw [ReqInv_iff]
      have := alloc_ok _ _ (alloc_ok h2 _ hok2)
      refine StateOk.perm _ _ _ ?_ this
      simpa using List.Perm.swap h2.alloc.1 h2.alloc.2.alloc.1 r.proxy_server.toList

/-- http_freereq frees each held field exactly once and ends with no live
allocation. -/
theorem freereqH_ok (h : HeapM) (r : ReqIds) (hok : ReqInv h r) :
    ∃ s, freereqH h r = some s ∧ ReqInv s.1 s.2 ∧ s.1.live = [] := by
  rw [ReqInv_iff] at hok
  have hok' : StateOk h (r.server.toList ++ (r.proxy_server.toList ++ r.pathname.toList)) := by
    refine StateOk.perm _ _ _ ?_ hok
    exact List.Perm.append_left _ (List.perm_append_comm)
  obtain ⟨h1, hf1, hok1, hn1⟩ := freeField_ok h r.server _ hok'
  obtain ⟨h2, hf2, hok2, hn2⟩ := freeField_ok h1 r.proxy_server _ hok1
  obtain ⟨h3, hf3, hok3, hn3⟩ := freeField_ok h2 r.pathname [] (by simpa using hok2)
  refine ⟨(h3, ⟨none, none, none⟩), ?_, ?_, ?_⟩
  · simp [freereqH, hf1, hf2, hf3]
  · rw [ReqInv_iff]
    simpa using hok3
  · obtain ⟨_, _, hmem, _, _⟩ := hok3
    rcases hl : h3.live with _ | ⟨x, xs⟩
    · rfl
    · exact absurd (hmem x (by simp [hl])) (by simp)

/-- Any sequence of http_parse_url and http_freereq calls on a descriptor
satisfying the ownership invariant runs without double or invalid frees and
re-establishes the invariant. -/
theorem runOps_ok (ops : List ReqOp) (h : HeapM) (r : ReqIds)
    (hok : ReqInv h r) : ∃ s, runOps h r ops = some s ∧ ReqInv s.1 s.2 := by
  induction ops generalizing h r with
  | nil => exact ⟨(h, r), rfl, hok⟩
  | cons op ops ih =>
    cases op with
    | parse p =>
      obtain ⟨s, hs, hsok⟩ := parse_urlH_ok h r p hok
      obtain ⟨s', hs', hs'ok⟩ := ih s.1 s.2 hsok
      exact ⟨s', by simp [runOps, hs, hs'], hs'ok⟩
    | freereq =>
      obtain ⟨s, hs, hsok, _⟩ := freereqH_ok h r hok
      obtain ⟨s', hs', hs'ok⟩ := ih s.1 s.2 hsok
      exact ⟨s', by simp [runOps, hs, hs'], hs'ok⟩

/-! Claim theorems. -/

/-- Claim C1, counterexample: on a stream producing "abc\r\n" the Line Reader
returns 5 — the count of bytes read, CR and LF included — and not 3, even
though the stored line is the 3-byte "abc".  This refutes the claim that the
return value excludes the LF terminator and the discarded CR bytes. -/
theorem cex_C1 :
    http_read_line (mkStream (bytes "abc\r\n")) 511 = (5, bytes "abc", [])
    ∧ ¬ ((http_read_line (mkStream (bytes "abc\r\n")) 511).1 = 3) := by
  constructor
  · rfl
  · decide

/-- Claim C1, amended: for every stream delivering a CR/LF-free line body
followed by CR LF within the byte limit, http_read_line returns the count of
bytes READ — the line body plus the CR and the LF, hence length + 2 — while
the buffer stores only the line body; for "abc\r\n" it returns 5 with stored
line "abc". -/
theorem claim_C1 (L rest : List Nat) (max : Nat)
    (h10 : ¬ 10 ∈ L) (h13 : ¬ 13 ∈ L) (hmax : L.length + 2 ≤ max) :
    http_read_line (mkStream (L ++ 13 :: 10 :: rest)) max
      = ((L.length + 2 : Int), L, mkStream rest) :=
  http_read_line_crlf L rest max h10 h13 hmax

/-- Witness for C1 at the stream "abc\r\n". -/
theorem wit_C1 :
    http_read_line (mkStream (bytes "abc" ++ 13 :: 10 :: [])) 511
      = (((bytes "abc").length + 2 : Int), bytes "abc", mkStream []) :=
  claim_C1 (bytes "abc") [] 511 (by decide) (by decide) (by decide)

/-- Claim C2, counterexample: parsing "http://h:x" fails with ERRURLP but
leaves the freshly parsed host "h" assigned to the server field, refuting the
claim that every failure path leaves server and pathname cleared. -/
theorem cex_C2 :
    http_parse_url ⟨none, 0, none, 0, none⟩ (bytes "http://h:x")
      = .ok (ERRURLP, ⟨some [104], 80, none, 0, none⟩)
    ∧ ¬ (some [104] : Option (List Nat)) = none := by
  constructor
  · rfl
  · decide

/-- Claim C2, amended: when http_parse_url fails with the invalid-scheme code
both server and pathname are cleared (port reset to 80); when it fails with
the invalid-port code the pathname is cleared and the port is 80, but the
server field holds the newly parsed host rather than being cleared (the prior
allocations having been released in both cases). -/
theorem claim_C2 (req : HttpReqM) (url : List Nat) (ret : Int) (req' : HttpReqM)
    (h : http_parse_url req url = .ok (ret, req')) :
    (ret = ERRURLH → req'.server = none ∧ req'.pathname = none ∧ req'.port = 80)
    ∧ (ret = ERRURLP → req'.pathname = none ∧ req'.port = 80
        ∧ req'.server = some (urlHost url)) :=
  parse_url_fail_state req url ret req' h

/-- Witness for C2 at the URL "http://h:x". -/
theorem wit_C2 :
    (ERRURLP = ERRURLH → (⟨some [104], 80, none, 0, none⟩ : HttpReqM).server = none
        ∧ (⟨some [104], 80, none, 0, none⟩ : HttpReqM).pathname = none
        ∧ (⟨some [104], 80, none, 0, none⟩ : HttpReqM).port = 80)
    ∧ (ERRURLP = ERRURLP → (⟨some [104], 80, none, 0, none⟩ : HttpReqM).pathname = none
        ∧ (⟨some [104], 80, none, 0, none⟩ : HttpReqM).port = 80
        ∧ (⟨some [104], 80, none, 0, none⟩ : HttpReqM).server
            = some (urlHost (bytes "http://h:x"))) :=
  claim_C2 ⟨none, 0, none, 0, none⟩ (bytes "http://h:x") ERRURLP
    ⟨some [104], 80, none, 0, none⟩ rfl

/-- Claim C3: with an address list whose first entry has the unusable family
AF_UNIX (address identity 7) and whose second entry is the first usable one
(AF_INET, address identity 9), http_query hands connect the FIRST entry's
address with the port applied to it — `memcpy(&server, addrinfo->ai_addr, …)`
copies `addrinfo`, not `thisaddr` — not the first usable entry selected by
its own loop; when no entry is usable it returns ERRHOST without creating a
socket, as claimed. -/
theorem claim_C3 :
    (http_query ⟨some [⟨AF_UNIX, 7⟩, ⟨AF_INET, 9⟩], true, true, true, true⟩ 80 true false
        (mkStream (bytes "HTTP/1.0 200 OK" ++ [13, 10]))).connTarget
      = some ⟨AF_UNIX, 7, 80⟩
    ∧ List.find? (fun x => x.family = AF_INET ∨ x.family = AF_INET6)
        [(⟨AF_UNIX, 7⟩ : AddrEnt), ⟨AF_INET, 9⟩] = some ⟨AF_INET, 9⟩
    ∧ ¬ (⟨AF_UNIX, 7, 80⟩ : SockAddrM) = ⟨AF_INET, 9, 80⟩
    ∧ (http_query ⟨some [⟨AF_UNIX, 7⟩], true, true, true, true⟩ 80 true false []).ret = ERRHOST
    ∧ (http_query ⟨some [⟨AF_UNIX, 7⟩], true, true, true, true⟩ 80 true false []).socketCreated
        = false := by
  refine ⟨rfl, by decide, by decide, rfl, rfl⟩

/-- Claim C4: for "http://" followed by a host containing neither colon nor
slash, http_parse_url does not return success with an empty pathname staying
within the input: the pointer arithmetic `ourUrl += offs + 1` lands one byte
past the NUL terminator and the final strdup reads out of bounds (the
undefined-behaviour marker of the model). -/
theorem claim_C4 (req : HttpReqM) (host : List Nat)
    (h0 : ¬ 0 ∈ host) (h58 : ¬ 58 ∈ host) (h47 : ¬ 47 ∈ host) :
    http_parse_url req (bytes "http://" ++ host) = .error () :=
  parse_url_no_slash req host h0 h58 h47

/-- Witness for C4 at the URL "http://example". -/
theorem wit_C4 :
    http_parse_url ⟨none, 0, none, 0, none⟩ (bytes "http://" ++ bytes "example")
      = .error () :=
  claim_C4 ⟨none, 0, none, 0, none⟩ (bytes "example") (by decide) (by decide) (by decide)

/-- Claim C5: http_read_buffer returns exactly the requested count N and the
first N available bytes whenever the stream has N bytes before its EOF/error
point, however they are chunked; and when the stream runs out after k bytes it
returns -k with exactly those k bytes stored. -/
theorem claim_C5 (cs : Chunks) (N : Nat) :
    (N ≤ (avail cs).length →
      (http_read_buffer cs N).1 = (N : Int)
        ∧ (http_read_buffer cs N).2.1 = (avail cs).take N)
    ∧ ((avail cs).length < N →
      (http_read_buffer cs N).1 = -((avail cs).length : Int)
        ∧ (http_read_buffer cs N).2.1 = avail cs) :=
  ⟨fun h => http_read_buffer_full cs N h, fun h => http_read_buffer_short cs N h⟩

/-- Witness for C5: "hello" delivered as chunks "he"/"l"/"lo" is read in
full as 5 bytes; the same stream truncated to "he"/"l" returns -3. -/
theorem wit_C5 :
    ((http_read_buffer [[104, 101], [108], [108, 111]] 5).1 = ((5 : Nat) : Int)
      ∧ (http_read_buffer [[104, 101], [108], [108, 111]] 5).2.1
          = (avail [[104, 101], [108], [108, 111]]).take 5)
    ∧ ((http_read_buffer [[104, 101], [108]] 4).1
          = -((avail [[104, 101], [108]]).length : Int)
      ∧ (http_read_buffer [[104, 101], [108]] 4).2.1 = avail [[104, 101], [108]]) :=
  ⟨(claim_C5 [[104, 101], [108], [108, 111]] 5).1 (by decide),
   (claim_C5 [[104, 101], [108]] 4).2 (by decide)⟩

/-- Claim C8: starting from any state satisfying the ownership invariant —
live allocations exactly the distinct ids held by server, pathname and
proxy_server — every sequence of http_parse_url and http_freereq calls runs
with no double or invalid free (the run never fails) and re-establishes the
invariant, so each field allocation is freed exactly once, before
reassignment or on release. -/
theorem claim_C8 (ops : List ReqOp) (h : HeapM) (r : ReqIds)
    (hok : ReqInv h r) : ∃ s, runOps h r ops = some s ∧ ReqInv s.1 s.2 :=
  runOps_ok ops h r hok

/-- Witness for C8: a parse/free/parse/parse sequence from the all-NULL
descriptor and empty heap. -/
theorem wit_C8 :
    ∃ s, runOps ⟨0, []⟩ ⟨none, none, none⟩
        [.parse .okPath, .freereq, .parse .badPort, .parse .badScheme, .freereq]
      = some s ∧ ReqInv s.1 s.2 :=
  claim_C8 [.parse .okPath, .freereq, .parse .badPort, .parse .badScheme, .freereq]
    ⟨0, []⟩ ⟨none, none, none⟩ (by decide)

/-- Claim C6: on a 200 response whose header section yields no positive
content-length — no matching header, a zero value, or a negative value, i.e.
the folded length stays at most 0 — http_get returns ERRNOLG with *pdata
still NULL, no body buffer allocated, and not a single body byte consumed
from the stream; in particular it never returns a zero-length success. -/
theorem claim_C6 (env : NetEnv) (ads : List AddrEnt) (a : AddrEnt) (port : Nat)
    (sline : List Nat) (hdrs : List (List Nat)) (body : List Nat)
    (plengthP typebufP mallocOk : Bool) (junk : Nat)
    (ha : env.addrs = some ads)
    (hf : ads.find? (fun x => x.family = AF_INET ∨ x.family = AF_INET6) = some a)
    (hs : env.sockOk = true) (hc : env.connOk = true) (hh : env.sendHdrOk = true)
    (h10 : ¬ 10 ∈ sline) (h13 : ¬ 13 ∈ sline) (hlen : sline.length + 2 ≤ 511)
    (hps : parseStatus sline = some 200)
    (hclean : ∀ x ∈ hdrs, cleanLine x)
    (hnolen : foldLen hdrs (-1) ≤ 0) :
    (http_get env port (mkStream (sline ++ 13 :: 10 :: encodeHdrs hdrs body))
        true plengthP typebufP mallocOk junk).ret = ERRNOLG
    ∧ (http_get env port (mkStream (sline ++ 13 :: 10 :: encodeHdrs hdrs body))
        true plengthP typebufP mallocOk junk).pdata = some none
    ∧ (http_get env port (mkStream (sline ++ 13 :: 10 :: encodeHdrs hdrs body))
        true plengthP typebufP mallocOk junk).allocated = none
    ∧ (http_get env port (mkStream (sline ++ 13 :: 10 :: encodeHdrs hdrs body))
        true plengthP typebufP mallocOk junk).rest = mkStream body := by
  rw [http_get_hdrs env ads a port sline hdrs body plengthP typebufP mallocOk junk
    ha hf hs hc hh h10 h13 hlen hps hclean]
  rw [http_get_body, if_pos hnolen]
  exact ⟨rfl, rfl, rfl, rfl⟩

/-- Witness for C6: a 200 response with the single header line
"Content-Length: 0" and a nonempty body. -/
theorem wit_C6 :
    (http_get ⟨some [⟨AF_INET, 9⟩], true, true, true, true⟩ 80
        (mkStream (bytes "HTTP/1.0 200 OK"
          ++ 13 :: 10 :: encodeHdrs [bytes "Content-Length: 0"] (bytes "x")))
        true true true true 0).ret = ERRNOLG
    ∧ (http_get ⟨some [⟨AF_INET, 9⟩], true, true, true, true⟩ 80
        (mkStream (bytes "HTTP/1.0 200 OK"
          ++ 13 :: 10 :: encodeHdrs [bytes "Content-Length: 0"] (bytes "x")))
        true true true true 0).pdata = some none
    ∧ (http_get ⟨some [⟨AF_INET, 9⟩], true, true, true, true⟩ 80
        (mkStream (bytes "HTTP/1.0 200 OK"
          ++ 13 :: 10 :: encodeHdrs [bytes "Content-Length: 0"] (bytes "x")))
        true true true true 0).allocated = none
    ∧ (http_get ⟨some [⟨AF_INET, 9⟩], true, true, true, true⟩ 80
        (mkStream (bytes "HTTP/1.0 200 OK"
          ++ 13 :: 10 :: encodeHdrs [bytes "Content-Length: 0"] (bytes "x")))
        true true true true 0).rest = mkStream (bytes "x") :=
  claim_C6 ⟨some [⟨AF_INET, 9⟩], true, true, true, true⟩ [⟨AF_INET, 9⟩] ⟨AF_INET, 9⟩ 80
    (bytes "HTTP/1.0 200 OK") [bytes "Content-Length: 0"] (bytes "x")
    true true true 0 rfl (by decide) rfl rfl rfl
    (by decide) (by decide) (by decide) (by decide) (by decide) (by decide)

/-- Claim C7: http_head never allocates a body buffer on any input at all,
and on every well-formed 200 response it consumes the stream only up to the
blank line — the remainder it leaves is exactly the body, whatever
Content-Length the headers declared — returning 200 and the extracted length
(converted to size_t) through plength. -/
theorem claim_C7 :
    (∀ (env : NetEnv) (port : Nat) (cs : Chunks) (pP tP : Bool),
      (http_head env port cs pP tP).allocated = none)
    ∧ ∀ (env : NetEnv) (ads : List AddrEnt) (a : AddrEnt) (port : Nat)
        (sline : List Nat) (hdrs : List (List Nat)) (body : List Nat) (pP tP : Bool),
        env.addrs = some ads →
        ads.find? (fun x => x.family = AF_INET ∨ x.family = AF_INET6) = some a →
        env.sockOk = true → env.connOk = true → env.sendHdrOk = true →
        ¬ 10 ∈ sline → ¬ 13 ∈ sline → sline.length + 2 ≤ 511 →
        parseStatus sline = some 200 →
        (∀ x ∈ hdrs, cleanLine x) →
        (http_head env port (mkStream (sline ++ 13 :: 10 :: encodeHdrs hdrs body)) pP tP).rest
            = mkStream body
        ∧ (http_head env port (mkStream (sline ++ 13 :: 10 :: encodeHdrs hdrs body)) pP tP).ret
            = 200
        ∧ (http_head env port (mkStream (sline ++ 13 :: 10 :: encodeHdrs hdrs body)) pP tP).plength
            = (if pP then some (sizeT (foldLen hdrs (-1))) else none) := by
  constructor
  · exact http_head_alloc_none
  · intro env ads a port sline hdrs body pP tP ha hf hs hc hh h10 h13 hlen hps hclean
    rw [http_head_hdrs env ads a port sline hdrs body pP tP ha hf hs hc hh h10 h13 hlen hps hclean]
    exact ⟨rfl, rfl, rfl⟩

/-- Witness for C7: a 200 response declaring Content-Length 999 whose body
"no" is left untouched by http_head. -/
theorem wit_C7 :
    (http_head ⟨some [⟨AF_INET, 9⟩], true, true, true, true⟩ 80
        (mkStream (bytes "HTTP/1.0 200 OK"
          ++ 13 :: 10 :: encodeHdrs [bytes "Content-Length: 999"] (bytes "no")))
        true true).rest = mkStream (bytes "no")
    ∧ (http_head ⟨some [⟨AF_INET, 9⟩], true, true, true, true⟩ 80
        (mkStream (bytes "HTTP/1.0 200 OK"
          ++ 13 :: 10 :: encodeHdrs [bytes "Content-Length: 999"] (bytes "no")))
        true true).ret = 200
    ∧ (http_head ⟨some [⟨AF_INET, 9⟩], true, true, true, true⟩ 80
        (mkStream (bytes "HTTP/1.0 200 OK"
          ++ 13 :: 10 :: encodeHdrs [bytes "Content-Length: 999"] (bytes "no")))
        true true).plength
        = (if true then some (sizeT (foldLen [bytes "Content-Length: 999"] (-1))) else none) :=
  claim_C7.2 ⟨some [⟨AF_INET, 9⟩], true, true, true, true⟩ [⟨AF_INET, 9⟩] ⟨AF_INET, 9⟩ 80
    (bytes "HTTP/1.0 200 OK") [bytes "Content-Length: 999"] (bytes "no") true true
    rfl (by decide) rfl rfl rfl (by decide) (by decide) (by decide) (by decide) (by decide)

/-- Claim C9: on a 200 response none of whose header lines yields a parseable
content-length, http_head still returns 200 and, when the plength pointer is
given, stores the int -1 converted to size_t — SIZE_MAX = 2^64 - 1 — while
http_get on the same response fails with ERRNOLG. -/
theorem claim_C9 (env : NetEnv) (ads : List AddrEnt) (a : AddrEnt) (port : Nat)
    (sline : List Nat) (hdrs : List (List Nat)) (body : List Nat)
    (pP tP mOk : Bool) (junk : Nat)
    (ha : env.addrs = some ads)
    (hf : ads.find? (fun x => x.family = AF_INET ∨ x.family = AF_INET6) = some a)
    (hs : env.sockOk = true) (hc : env.connOk = true) (hh : env.sendHdrOk = true)
    (h10 : ¬ 10 ∈ sline) (h13 : ¬ 13 ∈ sline) (hlen : sline.length + 2 ≤ 511)
    (hps : parseStatus sline = some 200)
    (hclean : ∀ x ∈ hdrs, cleanLine x)
    (hnoCL : ∀ x ∈ hdrs, scanCL (lowerUptoColon x) = none) :
    (http_head env port (mkStream (sline ++ 13 :: 10 :: encodeHdrs hdrs body)) pP tP).ret = 200
    ∧ (pP = true →
        (http_head env port (mkStream (sline ++ 13 :: 10 :: encodeHdrs hdrs body)) pP tP).plength
          = some (2 ^ 64 - 1))
    ∧ (http_get env port (mkStream (sline ++ 13 :: 10 :: encodeHdrs hdrs body))
        true pP tP mOk junk).ret = ERRNOLG := by
  have hfl : foldLen hdrs (-1) = -1 := foldLen_none hdrs (-1) hnoCL
  rw [http_head_hdrs env ads a port sline hdrs body pP tP ha hf hs hc hh h10 h13 hlen hps hclean]
  rw [http_get_hdrs env ads a port sline hdrs body pP tP mOk junk ha hf hs hc hh h10 h13
    hlen hps hclean]
  refine ⟨rfl, ?_, ?_⟩
  · intro hpp
    subst hpp
    show (if true = true then some (sizeT (foldLen hdrs (-1))) else none) = some (2 ^ 64 - 1)
    rw [if_pos rfl, hfl]
    decide
  · show (http_get_body (foldLen hdrs (-1)) (foldTb hdrs (if tP = true then some [] else none))
      (mkStream body) pP mOk junk).ret = ERRNOLG
    rw [http_get_body, hfl, if_pos (by norm_num : (-1 : Int) ≤ 0)]

/-- Witness for C9: a 200 response whose only header is "Foo: bar". -/
theorem wit_C9 :
    (http_head ⟨some [⟨AF_INET, 9⟩], true, true, true, true⟩ 80
        (mkStream (bytes "HTTP/1.0 200 OK"
          ++ 13 :: 10 :: encodeHdrs [bytes "Foo: bar"] (bytes "b"))) true true).ret = 200
    ∧ (true = true →
        (http_head ⟨some [⟨AF_INET, 9⟩], true, true, true, true⟩ 80
          (mkStream (bytes "HTTP/1.0 200 OK"
            ++ 13 :: 10 :: encodeHdrs [bytes "Foo: bar"] (bytes "b"))) true true).plength
          = some (2 ^ 64 - 1))
    ∧ (http_get ⟨some [⟨AF_INET, 9⟩], true, true, true, true⟩ 80
        (mkStream (bytes "HTTP/1.0 200 OK"
          ++ 13 :: 10 :: encodeHdrs [bytes "Foo: bar"] (bytes "b")))
        true true true true 0).ret = ERRNOLG :=
  claim_C9 ⟨some [⟨AF_INET, 9⟩], true, true, true, true⟩ [⟨AF_INET, 9⟩] ⟨AF_INET, 9⟩ 80
    (bytes "HTTP/1.0 200 OK") [bytes "Foo: bar"] (bytes "b") true true true 0
    rfl (by decide) rfl rfl rfl (by decide) (by decide) (by decide) (by decide)
    (by decide) (by decide)

/-- Claim C10: with a non-NULL pdata argument, (a) on every return that is
neither 200 nor the short-body-read error ERRRDDT, *pdata is NULL; (b) when
the very first network step (resolution) fails, the outputs hold exactly the
initial values written before any network activity — *pdata NULL, *plength 0,
*typebuf empty; (c) on a well-formed 200 response declaring content-length L
but delivering a shorter body, http_get returns ERRRDDT with *pdata an
allocated buffer of L bytes whose prefix is the partial data (the remainder
malloc junk), and *plength holding the declared L. -/
theorem claim_C10 :
    (∀ (env : NetEnv) (port : Nat) (cs : Chunks) (pP tP mOk : Bool) (junk : Nat),
      ¬ (http_get env port cs true pP tP mOk junk).ret = 200 →
      ¬ (http_get env port cs true pP tP mOk junk).ret = ERRRDDT →
      (http_get env port cs true pP tP mOk junk).pdata = some none)
    ∧ (∀ (env : NetEnv) (port : Nat) (cs : Chunks) (pP tP mOk : Bool) (junk : Nat),
        env.addrs = none →
        http_get env port cs true pP tP mOk junk
          = ⟨ERRHOST, some none, (if pP then some 0 else none),
              (if tP then some [] else none), none, cs⟩)
    ∧ (∀ (env : NetEnv) (ads : List AddrEnt) (a : AddrEnt) (port : Nat)
         (sline : List Nat) (hdrs : List (List Nat)) (body : List Nat)
         (pP tP : Bool) (junk : Nat) (L : Nat),
        env.addrs = some ads →
        ads.find? (fun x => x.family = AF_INET ∨ x.family = AF_INET6) = some a →
        env.sockOk = true → env.connOk = true → env.sendHdrOk = true →
        ¬ 10 ∈ sline → ¬ 13 ∈ sline → sline.length + 2 ≤ 511 →
        parseStatus sline = some 200 →
        (∀ x ∈ hdrs, cleanLine x) →
        foldLen hdrs (-1) = (L : Int) →
        0 < L → L < 2 ^ 64 →
        body.length < L →
        (http_get env port (mkStream (sline ++ 13 :: 10 :: encodeHdrs hdrs body))
            true pP tP true junk).ret = ERRRDDT
        ∧ (http_get env port (mkStream (sline ++ 13 :: 10 :: encodeHdrs hdrs body))
            true pP tP true junk).pdata
            = some (some (body ++ List.replicate (L - body.length) junk))
        ∧ (http_get env port (mkStream (sline ++ 13 :: 10 :: encodeHdrs hdrs body))
            true pP tP true junk).plength = (if pP then some L else none)
        ∧ (http_get env port (mkStream (sline ++ 13 :: 10 :: encodeHdrs hdrs body))
            true pP tP true junk).allocated = some L) := by
  have htr : ¬ ¬ true = true := by norm_num
  refine ⟨?_, ?_, ?_⟩
  · intro env port cs pP tP mOk junk h200 hRDDT
    rw [http_get, if_neg htr] at h200 hRDDT ⊢
    by_cases hq : ¬ (http_query env port true false cs).ret = 200
    · rw [if_pos hq]
    · rw [if_neg hq] at h200 hRDDT ⊢
      rcases hE : readHeaders (http_query env port true false cs).rest (-1)
          (if tP = true then some [] else none) with cs' | ⟨len, tb, cs'⟩
      · simp only [hE]
      · simp only [hE] at h200 hRDDT ⊢
        rw [http_get_body] at h200 hRDDT ⊢
        by_cases hl0 : len ≤ 0
        · rw [if_pos hl0]
        · rw [if_neg hl0] at h200 hRDDT ⊢
          by_cases hm : ¬ mOk = true
          · rw [if_pos hm]
          · rw [if_neg hm] at h200 hRDDT ⊢
            by_cases hrb : ¬ (http_read_buffer cs' len.toNat).1 = (len.toNat : Int)
            · rw [if_pos hrb] at hRDDT
              exact absurd rfl hRDDT
            · rw [if_neg hrb] at h200
              exact absurd rfl h200
  · intro env port cs pP tP mOk junk haddr
    have hq : http_query env port true false cs = ⟨ERRHOST, false, none, false, cs⟩ := by
      rw [http_query, haddr]
    rw [http_get, if_neg htr, hq]
    rw [if_pos (by norm_num [ERRHOST] : ¬ (ERRHOST = (200 : Int)))]
  · intro env ads a port sline hdrs body pP tP junk L ha hf hs hc hh h10 h13 hlen hps
      hclean hfl hLpos hLsize hshort
    rw [http_get_hdrs env ads a port sline hdrs body pP tP true junk ha hf hs hc hh h10 h13
      hlen hps hclean]
    rw [http_get_body, hfl]
    rw [if_neg (by omega : ¬ ((L : Int) ≤ 0))]
    rw [if_neg htr]
    have htoNat : ((L : Int)).toNat = L := Int.toNat_natCast L
    have havb : avail (mkStream body) = body := avail_mkStream body
    have hshort2 : (avail (mkStream body)).length < ((L : Int)).toNat := by
      rw [havb, htoNat]; exact hshort
    obtain ⟨hrb1, hrb2⟩ := http_read_buffer_short (mkStream body) (((L : Int)).toNat) hshort2
    have hne : ¬ (http_read_buffer (mkStream body) (((L : Int)).toNat)).1
        = ((((L : Int)).toNat : Nat) : Int) := by
      rw [hrb1, havb, htoNat]
      intro hcon
      omega
    rw [if_pos hne]
    refine ⟨rfl, ?_, ?_, ?_⟩
    · show some (some ((http_read_buffer (mkStream body) ((L : Int)).toNat).2.1
        ++ List.replicate (((L : Int)).toNat
            - (http_read_buffer (mkStream body) ((L : Int)).toNat).2.1.length) junk))
        = some (some (body ++ List.replicate (L - body.length) junk))
      rw [hrb2, havb, htoNat]
    · show (if pP = true then some (sizeT (L : Int)) else none) = (if pP = true then some L else none)
      have : sizeT (L : Int) = L := by
        rw [sizeT, Int.emod_eq_of_lt (by positivity) (by exact_mod_cast hLsize)]
        exact htoNat
      rw [this]
    · show some ((L : Int)).toNat = some L
      rw [htoNat]

/-- Witness for C10: a connect failure leaves *pdata NULL; a resolution
failure leaves all outputs at their initial values; a response declaring
Content-Length 5 but delivering only "hi" yields ERRRDDT with a 5-byte buffer
holding "hi" then junk, and *plength = 5. -/
theorem wit_C10 :
    (http_get ⟨some [⟨AF_INET, 9⟩], true, false, true, true⟩ 80 [] true true true true 0).pdata
      = some none
    ∧ http_get ⟨none, true, true, true, true⟩ 80 [[1, 2]] true true true true 0
      = ⟨ERRHOST, some none, (if true then some 0 else none),
          (if true then some [] else none), none, [[1, 2]]⟩
    ∧ ((http_get ⟨some [⟨AF_INET, 9⟩], true, true, true, true⟩ 80
          (mkStream (bytes "HTTP/1.0 200 OK"
            ++ 13 :: 10 :: encodeHdrs [bytes "Content-Length: 5"] (bytes "hi")))
          true true true true 7).ret = ERRRDDT
      ∧ (http_get ⟨some [⟨AF_INET, 9⟩], true, true, true, true⟩ 80
          (mkStream (bytes "HTTP/1.0 200 OK"
            ++ 13 :: 10 :: encodeHdrs [bytes "Content-Length: 5"] (bytes "hi")))
          true true true true 7).pdata
          = some (some (bytes "hi" ++ List.replicate (5 - (bytes "hi").length) 7))
      ∧ (http_get ⟨some [⟨AF_INET, 9⟩], true, true, true, true⟩ 80
          (mkStream (bytes "HTTP/1.0 200 OK"
            ++ 13 :: 10 :: encodeHdrs [bytes "Content-Length: 5"] (bytes "hi")))
          true true true true 7).plength = (if true then some 5 else none)
      ∧ (http_get ⟨some [⟨AF_INET, 9⟩], true, true, true, true⟩ 80
          (mkStream (bytes "HTTP/1.0 200 OK"
            ++ 13 :: 10 :: encodeHdrs [bytes "Content-Length: 5"] (bytes "hi")))
          true true true true 7).allocated = some 5) :=
  ⟨claim_C10.1 ⟨some [⟨AF_INET, 9⟩], true, false, true, true⟩ 80 [] true true true 0
      (by decide) (by decide),
   claim_C10.2.1 ⟨none, true, true, true, true⟩ 80 [[1, 2]] true true true 0 rfl,
   claim_C10.2.2 ⟨some [⟨AF_INET, 9⟩], true, true, true, true⟩ [⟨AF_INET, 9⟩] ⟨AF_INET, 9⟩ 80
     (bytes "HTTP/1.0 200 OK") [bytes "Content-Length: 5"] (bytes "hi") true true 7 5
     rfl (by decide) rfl rfl rfl (by decide) (by decide) (by decide) (by decide) (by decide)
     (by decide) (by decide) (by decide) (by decide)⟩

end HttpTiny
